import Mathlib

/-!
Verification of the DXF merge tooling (extract_and_put_cq).

The Python sources merge several DXF documents into one target document:
`fixed_merge_dxf_Version2.merge_dxf_files` and `merge_dxf_files.merge_dxf_files`
copy block definitions, layers, linetypes and text styles with an
insert-if-absent policy and then copy all modelspace entities; `merge_dxf.py`
provides two drivers (`merge_from_folder`, `merge`) around the external ezdxf
Importer; `batch_block_by_filename.all_entities_to_block` collapses a document's
modelspace into a single block reference.

The embedding below models a Document as an ordered entity list plus four
name-keyed registries (association lists).  Reading a file is modeled as an
`Option Document` (`none` = the read raised), and a fallible per-entity copy is
modeled by the `copyable` flag of an entity: `Entity.copy` returns `none`
exactly when the underlying `entity.copy()` call would raise.
-/

/-- A layer definition: color, linetype name, lineweight and flags, the
attributes copied by the layer loops of both merge scripts. -/
structure LayerDef where
  color : Int
  linetype : String
  lineweight : Int
  flags : Nat
  deriving DecidableEq

/-- A linetype definition; the merge scripts copy only the description. -/
structure LinetypeDef where
  description : String
  deriving DecidableEq

/-- A text style definition: font, width, height, oblique angle. -/
structure StyleDef where
  font : String
  width : Int
  height : Int
  oblique : Int
  deriving DecidableEq

/-- A single drawing entity.  `layerName` is a reference by name into the
owning document's layer registry; `groupName` is the referenced block name for
INSERT (block reference) entities and empty otherwise; `payload` stands for the
opaque geometry; `copyable` records whether `entity.copy()` succeeds. -/
structure Entity where
  kind : String
  layerName : String
  groupName : String
  pos : Int × Int
  payload : Nat
  copyable : Bool
  deriving DecidableEq

/-- Model of `entity.copy()`: a value copy that raises (returns `none`)
exactly for non-copyable entities. -/
def Entity.copy (e : Entity) : Option Entity :=
  if e.copyable then some e else none

/-- A block (reusable entity group): a name and an ordered entity list. -/
structure Block where
  name : String
  entities : List Entity
  deriving DecidableEq

/-- A document: ordered modelspace entities, the block registry, and the
three name-keyed resource tables, plus the `$INSBASE` header coordinate. -/
structure Document where
  entities : List Entity
  blocks : List Block
  layers : List (String × LayerDef)
  linetypes : List (String × LinetypeDef)
  styles : List (String × StyleDef)
  insbase : Int × Int × Int
  deriving DecidableEq

/-! ### Registry primitives (association lists keyed by name) -/

/-- Keys of a registry, in insertion order. -/
def regKeys {α : Type} (r : List (String × α)) : List String :=
  r.map Prod.fst

/-- Membership test used by the `name not in table` checks of the scripts. -/
def containsKey {α : Type} : List (String × α) → String → Bool
  | [], _ => false
  | p :: r, n => p.1 == n || containsKey r n

/-- Lookup of the entry registered under a name (first match). -/
def lookupKey {α : Type} : List (String × α) → String → Option α
  | [], _ => none
  | p :: r, n => if p.1 == n then some p.2 else lookupKey r n

/-- Number of entries of a registry carrying a given name. -/
def countKey {α : Type} (r : List (String × α)) (n : String) : Nat :=
  (regKeys r).count n

theorem lookupKey_append_some {α : Type} {r : List (String × α)} {n : String}
    {v : α} (s : List (String × α)) (h : lookupKey r n = some v) :
    lookupKey (r ++ s) n = some v := by
  induction r with
  | nil => simp [lookupKey] at h
  | cons p r ih =>
    by_cases hp : p.1 = n
    · simp [lookupKey, hp] at h ⊢
      exact h
    · simp [lookupKey, hp] at h ⊢
      exact ih h

theorem lookupKey_append_none {α : Type} {r : List (String × α)} {n : String}
    (s : List (String × α)) (h : lookupKey r n = none) :
    lookupKey (r ++ s) n = lookupKey s n := by
  induction r with
  | nil => rfl
  | cons p r ih =>
    by_cases hp : p.1 = n
    · simp [lookupKey, hp] at h
    · simp [lookupKey, hp] at h ⊢
      exact ih h

theorem containsKey_eq_isSome {α : Type} (r : List (String × α)) (n : String) :
    containsKey r n = (lookupKey r n).isSome := by
  induction r with
  | nil => rfl
  | cons p r ih =>
    by_cases hp : p.1 = n
    · simp [containsKey, lookupKey, hp]
    · simp [containsKey, lookupKey, hp, ih]

theorem lookup_of_containsKey_false {α : Type} {r : List (String × α)}
    {n : String} (h : containsKey r n = false) : lookupKey r n = none := by
  rw [containsKey_eq_isSome] at h
  cases hl : lookupKey r n with
  | none => rfl
  | some v => rw [hl] at h; simp at h

theorem mem_regKeys_iff {α : Type} (r : List (String × α)) (n : String) :
    n ∈ regKeys r ↔ containsKey r n = true := by
  induction r with
  | nil => simp [regKeys, containsKey]
  | cons p r ih =>
    by_cases hp : p.1 = n
    · simp [regKeys, containsKey, hp]
    · simp [regKeys, containsKey, hp, Ne.symm hp] at ih ⊢
      exact ih

/-! ### Insert-if-absent registry import

Each of the resource loops of `merge_dxf_files` (both variants) has the shape
`if name not in target_table and name not in excluded: target_table.new(...)`,
copying the full definition.  `importRegistry excluded` is that loop. -/

/-- One resource-table loop of the merge scripts: walk the source table in
order and append each entry whose name is neither already present in the
target table nor excluded. -/
def importRegistry {α : Type} (excluded : String → Bool)
    (t s : List (String × α)) : List (String × α) :=
  s.foldl (fun acc p => if containsKey acc p.1 || excluded p.1 then acc else acc ++ [p]) t

theorem importRegistry_nil {α : Type} (excluded : String → Bool)
    (t : List (String × α)) : importRegistry excluded t [] = t := rfl

theorem importRegistry_cons {α : Type} (excluded : String → Bool)
    (t : List (String × α)) (p : String × α) (s : List (String × α)) :
    importRegistry excluded t (p :: s) =
      importRegistry excluded
        (if containsKey t p.1 || excluded p.1 then t else t ++ [p]) s := rfl

/-- Insert-if-absent never overwrites: an existing entry survives the loop. -/
theorem importRegistry_lookup_preserved {α : Type} {excluded : String → Bool}
    {t : List (String × α)} {n : String} {v : α}
    (s : List (String × α)) (h : lookupKey t n = some v) :
    lookupKey (importRegistry excluded t s) n = some v := by
  induction s generalizing t with
  | nil => exact h
  | cons p s ih =>
    rw [importRegistry_cons]
    by_cases hc : (containsKey t p.1 || excluded p.1) = true
    · simp only [hc, if_pos]
      exact ih h
    · simp only [hc, if_neg, Bool.not_eq_true]
      exact ih (lookupKey_append_some [p] h)

/-- When the name is absent from the target and not excluded, the loop ends
with the first source definition of that name (first writer wins). -/
theorem importRegistry_lookup_new {α : Type} {excluded : String → Bool}
    {t : List (String × α)} {n : String}
    (s : List (String × α)) (ht : lookupKey t n = none)
    (hex : excluded n = false) :
    lookupKey (importRegistry excluded t s) n = lookupKey s n := by
  induction s generalizing t with
  | nil => simpa [importRegistry] using ht
  | cons p s ih =>
    rw [importRegistry_cons]
    by_cases hp : p.1 = n
    · subst hp
      have hct : containsKey t p.1 = false := by
        rw [containsKey_eq_isSome, ht]; rfl
      simp only [hct, hex, Bool.or_self, if_neg, Bool.false_eq_true,
        not_false_iff]
      have hnew : lookupKey (t ++ [p]) p.1 = some p.2 := by
        rw [lookupKey_append_none [p] ht]
        simp [lookupKey]
      rw [importRegistry_lookup_preserved s hnew]
      simp [lookupKey]
    · have hstep : ∀ t2 : List (String × α), lookupKey t2 n = none →
          lookupKey (if containsKey t2 p.1 || excluded p.1 then t2 else t2 ++ [p]) n = none := by
        intro t2 h2
        by_cases hc : (containsKey t2 p.1 || excluded p.1) = true
        · simp [hc, h2]
        · simp only [hc, if_neg, Bool.not_eq_true]
          rw [lookupKey_append_none [p] h2]
          simp [lookupKey, hp]
      rw [ih (hstep t ht)]
      simp [lookupKey, hp]

/-- A name excluded from the loop is never inserted: its lookup is exactly the
target's lookup, whatever the source holds. -/
theorem importRegistry_lookup_excluded {α : Type} {excluded : String → Bool}
    {n : String} (t s : List (String × α)) (hex : excluded n = true) :
    lookupKey (importRegistry excluded t s) n = lookupKey t n := by
  induction s generalizing t with
  | nil => rfl
  | cons p s ih =>
    rw [importRegistry_cons]
    by_cases hc : (containsKey t p.1 || excluded p.1) = true
    · simp only [hc, if_pos]
      exact ih t
    · simp only [hc, if_neg, Bool.not_eq_true]
      rw [ih (t ++ [p])]
      by_cases hp : p.1 = n
      · subst hp
        rw [hex] at hc
        simp at hc
      · cases hl : lookupKey t n with
        | none => rw [lookupKey_append_none [p] hl]; simp [lookupKey, hp]
        | some v => exact lookupKey_append_some [p] hl

/-- The loop preserves key uniqueness: it only inserts absent names. -/
theorem importRegistry_nodup {α : Type} {excluded : String → Bool}
    {t : List (String × α)} (s : List (String × α))
    (h : (regKeys t).Nodup) : (regKeys (importRegistry excluded t s)).Nodup := by
  induction s generalizing t with
  | nil => exact h
  | cons p s ih =>
    rw [importRegistry_cons]
    by_cases hc : (containsKey t p.1 || excluded p.1) = true
    · simp only [hc, if_pos]
      exact ih h
    · simp only [hc, if_neg, Bool.not_eq_true]
      apply ih
      have hnotin : p.1 ∉ regKeys t := by
        intro hmem
        rw [mem_regKeys_iff] at hmem
        simp [hmem] at hc
      have : regKeys (t ++ [p]) = regKeys t ++ [p.1] := by
        simp [regKeys]
      rw [this]
      simp [List.nodup_append, h, hnotin]

/-- A present name with unique keys occurs exactly once. -/
theorem countKey_eq_one {α : Type} {r : List (String × α)} {n : String}
    (hnd : (regKeys r).Nodup) (hmem : containsKey r n = true) :
    countKey r n = 1 := by
  rw [countKey, List.count_eq_one_of_mem hnd ((mem_regKeys_iff r n).mpr hmem)]

/-! ### Block import loops -/

/-- Names of the blocks of a block registry. -/
def blockNames (bs : List Block) : List String :=
  bs.map Block.name

/-- Block copy of `fixed_merge_dxf_Version2`: each contained entity is copied
inside its own try/except, so non-copyable entities are skipped with a
warning and the rest survive. -/
def copyBlockFixed (b : Block) : Block :=
  ⟨b.name, b.entities.filter Entity.copyable⟩

/-- The block loop of `fixed_merge_dxf_Version2.merge_dxf_files`: skip names
already processed in this run and names starting with the anonymous marker
`*`; otherwise, if the name is absent from the target block registry, create
the block (entity copies, per-entity try) and mark the name processed. -/
def importBlocksFixed : List String × List Block → List Block → List String × List Block
  | st, [] => st
  | (pb, t), b :: rest =>
    if !(pb.contains b.name) && !(b.name.startsWith "*") then
      if !((blockNames t).contains b.name) then
        importBlocksFixed (b.name :: pb, t ++ [copyBlockFixed b]) rest
      else
        importBlocksFixed (pb, t) rest
    else
      importBlocksFixed (pb, t) rest

/-- Block-content copy of `merge_dxf_files.merge_dxf_files`: entities are
copied without a per-entity try, so the first non-copyable entity raises;
the copies made before the failure remain in the new block.  The Bool result
is true when a copy raised. -/
def copyBlockEntitiesV1 : List Entity → List Entity × Bool
  | [] => ([], false)
  | e :: rest =>
    match e.copy with
    | some e2 =>
      let r := copyBlockEntitiesV1 rest
      (e2 :: r.1, r.2)
    | none => ([], true)

/-- The block loop of `merge_dxf_files.merge_dxf_files`: skip processed and
anonymous names; `blocks.new` on an existing name raises DXFValueError which
is caught (skip); otherwise the block is created and filled, and a raise while
filling aborts the whole source file import (outer except), leaving the
partially filled block in the target and the name unprocessed. -/
def importBlocksV1 : List String × List Block → List Block → (List String × List Block) × Bool
  | st, [] => (st, false)
  | (pb, t), b :: rest =>
    if !(pb.contains b.name) && !(b.name.startsWith "*") then
      if (blockNames t).contains b.name then
        importBlocksV1 (pb, t) rest
      else
        let r := copyBlockEntitiesV1 b.entities
        if r.2 then ((pb, t ++ [⟨b.name, r.1⟩]), true)
        else importBlocksV1 (b.name :: pb, t ++ [⟨b.name, r.1⟩]) rest
    else
      importBlocksV1 (pb, t) rest

theorem blockNames_append (t s : List Block) :
    blockNames (t ++ s) = blockNames t ++ blockNames s := by
  simp [blockNames]

/-- The fixed block loop preserves uniqueness of block names. -/
theorem importBlocksFixed_nodup (s : List Block) (pb : List String)
    (t : List Block) (h : (blockNames t).Nodup) :
    (blockNames (importBlocksFixed (pb, t) s).2).Nodup := by
  induction s generalizing pb t with
  | nil => exact h
  | cons b rest ih =>
    show (blockNames (importBlocksFixed (pb, t) (b :: rest)).2).Nodup
    rw [importBlocksFixed]
    by_cases h1 : (!(pb.contains b.name) && !(b.name.startsWith "*")) = true
    · rw [if_pos h1]
      by_cases h2 : (!((blockNames t).contains b.name)) = true
      · rw [if_pos h2]
        apply ih
        rw [blockNames_append]
        have hnotin : b.name ∉ blockNames t := by
          simp only [Bool.not_eq_true'] at h2
          simpa using h2
        rw [List.nodup_append]
        refine ⟨by simpa [blockNames, copyBlockFixed] using h,
          by simp [blockNames, copyBlockFixed], ?_⟩
        intro x hx
        simp only [blockNames, copyBlockFixed, List.map_cons, List.map_nil,
          List.mem_singleton]
        intro hxe
        rw [← hxe] at hnotin
        exact hnotin hx
      · rw [if_neg h2]
        exact ih pb t h
    · rw [if_neg h1]
      exact ih pb t h

/-- The fixed block loop never adds an anonymous (`*`-prefixed) block name. -/
theorem importBlocksFixed_star (s : List Block) (pb : List String)
    (t : List Block) :
    (blockNames (importBlocksFixed (pb, t) s).2).filter (fun n => n.startsWith "*")
      = (blockNames t).filter (fun n => n.startsWith "*") := by
  induction s generalizing pb t with
  | nil => rfl
  | cons b rest ih =>
    rw [importBlocksFixed]
    by_cases h1 : (!(pb.contains b.name) && !(b.name.startsWith "*")) = true
    · rw [if_pos h1]
      by_cases h2 : (!((blockNames t).contains b.name)) = true
      · rw [if_pos h2]
        rw [ih]
        rw [blockNames_append]
        rw [List.filter_append]
        have hstar : b.name.startsWith "*" = false := by
          simp only [Bool.and_eq_true, Bool.not_eq_true'] at h1
          exact h1.2
        simp [copyBlockFixed, blockNames, hstar]
      · rw [if_neg h2]
        exact ih pb t
    · rw [if_neg h1]
      exact ih pb t

/-- The v1 block loop preserves uniqueness of block names (also when it
aborts after inserting a partially filled block). -/
theorem importBlocksV1_nodup (s : List Block) (pb : List String)
    (t : List Block) (h : (blockNames t).Nodup) :
    (blockNames (importBlocksV1 (pb, t) s).1.2).Nodup := by
  induction s generalizing pb t with
  | nil => exact h
  | cons b rest ih =>
    rw [importBlocksV1]
    by_cases h1 : (!(pb.contains b.name) && !(b.name.startsWith "*")) = true
    · rw [if_pos h1]
      by_cases h2 : ((blockNames t).contains b.name) = true
      · rw [if_pos h2]
        exact ih pb t h
      · rw [if_neg h2]
        have hnotin : b.name ∉ blockNames t := by
          intro hmem
          exact h2 (by simpa using hmem)
        have hnd2 : (blockNames (t ++ [⟨b.name, (copyBlockEntitiesV1 b.entities).1⟩])).Nodup := by
          rw [blockNames_append, List.nodup_append]
          refine ⟨h, by simp [blockNames], ?_⟩
          intro x hx
          simp only [blockNames, List.map_cons, List.map_nil, List.mem_singleton]
          intro hxe
          rw [← hxe] at hnotin
          exact hnotin hx
        by_cases h3 : (copyBlockEntitiesV1 b.entities).2 = true
        · simp only [h3, if_pos]
          exact hnd2
        · simp only [h3, if_neg, Bool.not_eq_true]
          exact ih _ _ hnd2
    · rw [if_neg h1]
      exact ih pb t h

/-- The v1 block loop never adds an anonymous (`*`-prefixed) block name. -/
theorem importBlocksV1_star (s : List Block) (pb : List String)
    (t : List Block) :
    (blockNames (importBlocksV1 (pb, t) s).1.2).filter (fun n => n.startsWith "*")
      = (blockNames t).filter (fun n => n.startsWith "*") := by
  induction s generalizing pb t with
  | nil => rfl
  | cons b rest ih =>
    rw [importBlocksV1]
    by_cases h1 : (!(pb.contains b.name) && !(b.name.startsWith "*")) = true
    · rw [if_pos h1]
      have hstar : b.name.startsWith "*" = false := by
        simp only [Bool.and_eq_true, Bool.not_eq_true'] at h1
        exact h1.2
      by_cases h2 : ((blockNames t).contains b.name) = true
      · rw [if_pos h2]
        exact ih pb t
      · rw [if_neg h2]
        have happ : (blockNames (t ++ [⟨b.name, (copyBlockEntitiesV1 b.entities).1⟩])).filter
            (fun n => n.startsWith "*") = (blockNames t).filter (fun n => n.startsWith "*") := by
          rw [blockNames_append, List.filter_append]
          simp [blockNames, hstar]
        by_cases h3 : (copyBlockEntitiesV1 b.entities).2 = true
        · simp only [h3, if_pos]
          exact happ
        · simp only [h3, if_neg, Bool.not_eq_true]
          rw [ih]
          exact happ
    · rw [if_neg h1]
      exact ih pb t

/-- When every entity of a block is copyable, the v1 content copy succeeds
and copies everything. -/
theorem copyBlockEntitiesV1_total (es : List Entity)
    (h : ∀ e ∈ es, e.copyable = true) : copyBlockEntitiesV1 es = (es, false) := by
  induction es with
  | nil => rfl
  | cons e rest ih =>
    have he : e.copyable = true := h e (List.mem_cons_self e rest)
    have hrest : copyBlockEntitiesV1 rest = (rest, false) :=
      ih (fun x hx => h x (List.mem_cons_of_mem e hx))
    rw [copyBlockEntitiesV1]
    simp [Entity.copy, he, hrest]

/-- When every entity of every source block is copyable, the v1 block loop
never aborts. -/
theorem importBlocksV1_no_abort (s : List Block) (pb : List String)
    (t : List Block) (h : ∀ b ∈ s, ∀ e ∈ b.entities, e.copyable = true) :
    (importBlocksV1 (pb, t) s).2 = false := by
  induction s generalizing pb t with
  | nil => rfl
  | cons b rest ih =>
    have hb : copyBlockEntitiesV1 b.entities = (b.entities, false) :=
      copyBlockEntitiesV1_total b.entities (h b (List.mem_cons_self b rest))
    have hrest : ∀ b2 ∈ rest, ∀ e ∈ b2.entities, e.copyable = true :=
      fun b2 h2 => h b2 (List.mem_cons_of_mem b h2)
    rw [importBlocksV1]
    by_cases h1 : (!(pb.contains b.name) && !(b.name.startsWith "*")) = true
    · rw [if_pos h1]
      by_cases h2 : ((blockNames t).contains b.name) = true
      · rw [if_pos h2]
        exact ih pb t hrest
      · rw [if_neg h2]
        simp only [hb]
        exact ih _ _ hrest
    · rw [if_neg h1]
      exact ih pb t hrest

/-! ### Modelspace entity copy loop -/

/-- The modelspace loop shared by both merge scripts: each entity is copied
inside its own try/except and appended to the target modelspace; a failed
copy is logged and skipped.  Returns the grown target entity list and the
number of entities copied from this source (`entity_count`). -/
def copyEntitiesCount (t : List Entity) : List Entity → List Entity × Nat
  | [] => (t, 0)
  | e :: rest =>
    match e.copy with
    | some e2 =>
      let r := copyEntitiesCount (t ++ [e2]) rest
      (r.1, r.2 + 1)
    | none => copyEntitiesCount t rest

/-- The entities of a source that survive the per-entity copy. -/
def copiedOf (d : Document) : List Entity :=
  d.entities.filter Entity.copyable

theorem copyEntitiesCount_eq (s : List Entity) (t : List Entity) :
    copyEntitiesCount t s =
      (t ++ s.filter Entity.copyable, (s.filter Entity.copyable).length) := by
  induction s generalizing t with
  | nil => simp [copyEntitiesCount]
  | cons e rest ih =>
    cases hc : e.copyable with
    | true =>
      rw [copyEntitiesCount]
      simp only [Entity.copy, hc, if_pos]
      rw [ih (t ++ [e])]
      simp [List.filter_cons, hc, List.append_assoc]
    | false =>
      rw [copyEntitiesCount]
      simp only [Entity.copy, hc, Bool.false_eq_true, if_neg]
      rw [ih t]
      simp [List.filter_cons, hc]

/-! ### The fresh target document

`ezdxf.new()` creates the target with the modelspace and paperspace layout
blocks, layer `0`, the three built-in linetypes `ByBlock` / `ByLayer` /
`Continuous` and the built-in text style `Standard`. -/

/-- The empty target document created by `ezdxf.new()`. -/
def newDoc : Document where
  entities := []
  blocks := [⟨"*Model_Space", []⟩, ⟨"*Paper_Space", []⟩]
  layers := [("0", ⟨7, "Continuous", -3, 0⟩)]
  linetypes := [("ByBlock", ⟨""⟩), ("ByLayer", ⟨""⟩), ("Continuous", ⟨"Solid"⟩)]
  styles := [("Standard", ⟨"txt", 0, 0, 0⟩)]
  insbase := (0, 0, 0)

/-- The three built-in linetype names excluded by the linetype loop of
`fixed_merge_dxf_Version2.merge_dxf_files`. -/
def reservedLinetypesFixed : List String := ["ByLayer", "ByBlock", "Continuous"]

/-- The two linetype names excluded by the linetype loop of
`merge_dxf_files.merge_dxf_files`. -/
def reservedLinetypesV1 : List String := ["ByLayer", "ByBlock"]

/-! ### Per-source import steps and the merge run -/

/-- Run state of one merge run: the cross-source `processed_blocks` set, the
target document being built, and the per-source copied-entity counts printed
so far. -/
structure MergeState where
  processed : List String
  doc : Document
  counts : List Nat
  deriving DecidableEq

/-- Initial run state: empty processed set, fresh `ezdxf.new()` target. -/
def initState : MergeState :=
  ⟨[], newDoc, []⟩

/-- One source import of `fixed_merge_dxf_Version2.merge_dxf_files`: copy
blocks (skipping processed, anonymous and present names), then layers,
linetypes and text styles insert-if-absent (linetypes also skip the three
built-in names, styles skip `Standard`), then copy the modelspace entities. -/
def importSourceFixed (st : MergeState) (src : Document) : MergeState where
  processed := (importBlocksFixed (st.processed, st.doc.blocks) src.blocks).1
  doc :=
    { entities := (copyEntitiesCount st.doc.entities src.entities).1
      blocks := (importBlocksFixed (st.processed, st.doc.blocks) src.blocks).2
      layers := importRegistry (fun _ => false) st.doc.layers src.layers
      linetypes := importRegistry (fun n => reservedLinetypesFixed.contains n)
        st.doc.linetypes src.linetypes
      styles := importRegistry (fun n => n == "Standard") st.doc.styles src.styles
      insbase := st.doc.insbase }
  counts := st.counts ++ [(copyEntitiesCount st.doc.entities src.entities).2]

/-- One source import of `merge_dxf_files.merge_dxf_files`: same structure,
but a copy failure inside a block aborts the whole source import (outer
except) with the partial block kept, and the remaining tables and entities of
that source are not imported; the linetype loop excludes only `ByLayer` and
`ByBlock`, and the style loop has no explicit `Standard` exclusion. -/
def importSourceV1 (st : MergeState) (src : Document) : MergeState :=
  if (importBlocksV1 (st.processed, st.doc.blocks) src.blocks).2 then
    { processed := (importBlocksV1 (st.processed, st.doc.blocks) src.blocks).1.1
      doc := { st.doc with
        blocks := (importBlocksV1 (st.processed, st.doc.blocks) src.blocks).1.2 }
      counts := st.counts }
  else
    { processed := (importBlocksV1 (st.processed, st.doc.blocks) src.blocks).1.1
      doc :=
        { entities := (copyEntitiesCount st.doc.entities src.entities).1
          blocks := (importBlocksV1 (st.processed, st.doc.blocks) src.blocks).1.2
          layers := importRegistry (fun _ => false) st.doc.layers src.layers
          linetypes := importRegistry (fun n => reservedLinetypesV1.contains n)
            st.doc.linetypes src.linetypes
          styles := importRegistry (fun _ => false) st.doc.styles src.styles
          insbase := st.doc.insbase }
      counts := st.counts ++ [(copyEntitiesCount st.doc.entities src.entities).2] }

/-- The per-file loop of `fixed_merge_dxf_Version2.merge_dxf_files`: a file
whose read (or processing) raises is logged and skipped (`continue`), a file
that reads successfully is imported. -/
def mergeRunFixed (st : MergeState) : List (Option Document) → MergeState
  | [] => st
  | none :: rest => mergeRunFixed st rest
  | some d :: rest => mergeRunFixed (importSourceFixed st d) rest

/-- A whole run of `fixed_merge_dxf_Version2.merge_dxf_files` over the read
results of the listed files, from the fresh target. -/
def runFixed (files : List (Option Document)) : MergeState :=
  mergeRunFixed initState files

/-- The per-file loop of `merge_dxf_files.merge_dxf_files`. -/
def mergeRunV1 (st : MergeState) : List (Option Document) → MergeState
  | [] => st
  | none :: rest => mergeRunV1 st rest
  | some d :: rest => mergeRunV1 (importSourceV1 st d) rest

/-- A whole run of `merge_dxf_files.merge_dxf_files` over the read results of
the listed files, from the fresh target. -/
def runV1 (files : List (Option Document)) : MergeState :=
  mergeRunV1 initState files

/-- Output behavior of `fixed_merge_dxf_Version2.merge_dxf_files`: when the
directory holds no DXF files the function returns before creating anything;
otherwise `saveas` is called unconditionally after the loop, even when every
file failed. -/
def mergeDxfFilesOutput (files : List (Option Document)) : Option Document :=
  if files.isEmpty then none else some (runFixed files).doc

/-! ### Run-level lemmas -/

/-- The documents successfully read in a run, in order. -/
def readDocs (files : List (Option Document)) : List Document :=
  files.filterMap id

theorem importSourceFixed_entities (st : MergeState) (src : Document) :
    (importSourceFixed st src).doc.entities = st.doc.entities ++ copiedOf src := by
  show (copyEntitiesCount st.doc.entities src.entities).1 = _
  rw [copyEntitiesCount_eq]
  rfl

theorem importSourceFixed_counts (st : MergeState) (src : Document) :
    (importSourceFixed st src).counts = st.counts ++ [(copiedOf src).length] := by
  show st.counts ++ [(copyEntitiesCount st.doc.entities src.entities).2] = _
  rw [copyEntitiesCount_eq]
  rfl

/-- The fixed merge loop appends, per successfully read source, exactly that
source's successfully copied entities, and records one count per source. -/
theorem mergeRunFixed_entities (files : List (Option Document)) (st : MergeState) :
    (mergeRunFixed st files).doc.entities
        = st.doc.entities ++ ((readDocs files).map copiedOf).flatten ∧
      (mergeRunFixed st files).counts
        = st.counts ++ (readDocs files).map (fun d => (copiedOf d).length) := by
  induction files generalizing st with
  | nil => simp [mergeRunFixed, readDocs]
  | cons f rest ih =>
    cases f with
    | none =>
      have := ih st
      simpa [mergeRunFixed, readDocs] using this
    | some d =>
      have := ih (importSourceFixed st d)
      rw [show mergeRunFixed st (some d :: rest)
            = mergeRunFixed (importSourceFixed st d) rest from rfl]
      rw [this.1, this.2, importSourceFixed_entities, importSourceFixed_counts]
      simp [readDocs]

theorem runFixed_entities (files : List (Option Document)) :
    (runFixed files).doc.entities = ((readDocs files).map copiedOf).flatten := by
  have := (mergeRunFixed_entities files initState).1
  simpa [runFixed, initState] using this

theorem runFixed_counts (files : List (Option Document)) :
    (runFixed files).counts = (readDocs files).map (fun d => (copiedOf d).length) := by
  have := (mergeRunFixed_entities files initState).2
  simpa [runFixed, initState] using this

theorem importSourceFixed_layers (st : MergeState) (src : Document) :
    (importSourceFixed st src).doc.layers
      = importRegistry (fun _ => false) st.doc.layers src.layers := rfl

theorem importSourceFixed_linetypes (st : MergeState) (src : Document) :
    (importSourceFixed st src).doc.linetypes
      = importRegistry (fun n => reservedLinetypesFixed.contains n)
          st.doc.linetypes src.linetypes := rfl

theorem importSourceFixed_styles (st : MergeState) (src : Document) :
    (importSourceFixed st src).doc.styles
      = importRegistry (fun n => n == "Standard") st.doc.styles src.styles := rfl

theorem importSourceFixed_blocks (st : MergeState) (src : Document) :
    (importSourceFixed st src).doc.blocks
      = (importBlocksFixed (st.processed, st.doc.blocks) src.blocks).2 := rfl

/-- Layer lookup preservation across the whole fixed run. -/
theorem mergeRunFixed_layers_preserved (files : List (Option Document))
    (st : MergeState) {n : String} {v : LayerDef}
    (h : lookupKey st.doc.layers n = some v) :
    lookupKey (mergeRunFixed st files).doc.layers n = some v := by
  induction files generalizing st with
  | nil => exact h
  | cons f rest ih =>
    cases f with
    | none => exact ih st h
    | some d =>
      refine ih (importSourceFixed st d) ?_
      rw [importSourceFixed_layers]
      exact importRegistry_lookup_preserved _ h

/-- Linetype lookup preservation across the whole fixed run. -/
theorem mergeRunFixed_linetypes_preserved (files : List (Option Document))
    (st : MergeState) {n : String} {v : LinetypeDef}
    (h : lookupKey st.doc.linetypes n = some v) :
    lookupKey (mergeRunFixed st files).doc.linetypes n = some v := by
  induction files generalizing st with
  | nil => exact h
  | cons f rest ih =>
    cases f with
    | none => exact ih st h
    | some d =>
      refine ih (importSourceFixed st d) ?_
      rw [importSourceFixed_linetypes]
      exact importRegistry_lookup_preserved _ h

/-- Text-style lookup preservation across the whole fixed run. -/
theorem mergeRunFixed_styles_preserved (files : List (Option Document))
    (st : MergeState) {n : String} {v : StyleDef}
    (h : lookupKey st.doc.styles n = some v) :
    lookupKey (mergeRunFixed st files).doc.styles n = some v := by
  induction files generalizing st with
  | nil => exact h
  | cons f rest ih =>
    cases f with
    | none => exact ih st h
    | some d =>
      refine ih (importSourceFixed st d) ?_
      rw [importSourceFixed_styles]
      exact importRegistry_lookup_preserved _ h

theorem importSourceV1_layers_preserved (st : MergeState) (src : Document)
    {n : String} {v : LayerDef} (h : lookupKey st.doc.layers n = some v) :
    lookupKey (importSourceV1 st src).doc.layers n = some v := by
  rw [importSourceV1]
  by_cases hab : (importBlocksV1 (st.processed, st.doc.blocks) src.blocks).2 = true
  · simp only [hab, if_pos]
    exact h
  · simp only [hab, if_neg, Bool.not_eq_true]
    exact importRegistry_lookup_preserved _ h

theorem importSourceV1_linetypes_preserved (st : MergeState) (src : Document)
    {n : String} {v : LinetypeDef} (h : lookupKey st.doc.linetypes n = some v) :
    lookupKey (importSourceV1 st src).doc.linetypes n = some v := by
  rw [importSourceV1]
  by_cases hab : (importBlocksV1 (st.processed, st.doc.blocks) src.blocks).2 = true
  · simp only [hab, if_pos]
    exact h
  · simp only [hab, if_neg, Bool.not_eq_true]
    exact importRegistry_lookup_preserved _ h

theorem importSourceV1_styles_preserved (st : MergeState) (src : Document)
    {n : String} {v : StyleDef} (h : lookupKey st.doc.styles n = some v) :
    lookupKey (importSourceV1 st src).doc.styles n = some v := by
  rw [importSourceV1]
  by_cases hab : (importBlocksV1 (st.processed, st.doc.blocks) src.blocks).2 = true
  · simp only [hab, if_pos]
    exact h
  · simp only [hab, if_neg, Bool.not_eq_true]
    exact importRegistry_lookup_preserved _ h

/-- Layer lookup preservation across the whole v1 run. -/
theorem mergeRunV1_layers_preserved (files : List (Option Document))
    (st : MergeState) {n : String} {v : LayerDef}
    (h : lookupKey st.doc.layers n = some v) :
    lookupKey (mergeRunV1 st files).doc.layers n = some v := by
  induction files generalizing st with
  | nil => exact h
  | cons f rest ih =>
    cases f with
    | none => exact ih st h
    | some d => exact ih (importSourceV1 st d) (importSourceV1_layers_preserved st d h)

/-- Linetype lookup preservation across the whole v1 run. -/
theorem mergeRunV1_linetypes_preserved (files : List (Option Document))
    (st : MergeState) {n : String} {v : LinetypeDef}
    (h : lookupKey st.doc.linetypes n = some v) :
    lookupKey (mergeRunV1 st files).doc.linetypes n = some v := by
  induction files generalizing st with
  | nil => exact h
  | cons f rest ih =>
    cases f with
    | none => exact ih st h
    | some d => exact ih (importSourceV1 st d) (importSourceV1_linetypes_preserved st d h)

/-- Text-style lookup preservation across the whole v1 run. -/
theorem mergeRunV1_styles_preserved (files : List (Option Document))
    (st : MergeState) {n : String} {v : StyleDef}
    (h : lookupKey st.doc.styles n = some v) :
    lookupKey (mergeRunV1 st files).doc.styles n = some v := by
  induction files generalizing st with
  | nil => exact h
  | cons f rest ih =>
    cases f with
    | none => exact ih st h
    | some d => exact ih (importSourceV1 st d) (importSourceV1_styles_preserved st d h)

/-! ### Registry-uniqueness invariant and anonymous blocks, at run level -/

/-- All four registries of a document have pairwise distinct names. -/
def docNodup (d : Document) : Prop :=
  (blockNames d.blocks).Nodup ∧ (regKeys d.layers).Nodup ∧
    (regKeys d.linetypes).Nodup ∧ (regKeys d.styles).Nodup

theorem importSourceFixed_nodup (st : MergeState) (src : Document)
    (h : docNodup st.doc) : docNodup (importSourceFixed st src).doc := by
  obtain ⟨hb, hl, ht, hs⟩ := h
  refine ⟨?_, ?_, ?_, ?_⟩
  · rw [importSourceFixed_blocks]
    exact importBlocksFixed_nodup src.blocks st.processed st.doc.blocks hb
  · rw [importSourceFixed_layers]
    exact importRegistry_nodup src.layers hl
  · rw [importSourceFixed_linetypes]
    exact importRegistry_nodup src.linetypes ht
  · rw [importSourceFixed_styles]
    exact importRegistry_nodup src.styles hs

theorem importSourceV1_nodup (st : MergeState) (src : Document)
    (h : docNodup st.doc) : docNodup (importSourceV1 st src).doc := by
  obtain ⟨hb, hl, ht, hs⟩ := h
  rw [importSourceV1]
  by_cases hab : (importBlocksV1 (st.processed, st.doc.blocks) src.blocks).2 = true
  · simp only [hab, if_pos]
    exact ⟨importBlocksV1_nodup src.blocks st.processed st.doc.blocks hb, hl, ht, hs⟩
  · simp only [hab, if_neg, Bool.not_eq_true]
    refine ⟨?_, ?_, ?_, ?_⟩
    · exact importBlocksV1_nodup src.blocks st.processed st.doc.blocks hb
    · show (regKeys (importRegistry (fun _ => false) st.doc.layers src.layers)).Nodup
      exact importRegistry_nodup src.layers hl
    · exact importRegistry_nodup src.linetypes ht
    · show (regKeys (importRegistry (fun _ => false) st.doc.styles src.styles)).Nodup
      exact importRegistry_nodup src.styles hs

/-- The fixed merge loop keeps every registry duplicate-free at every step. -/
theorem mergeRunFixed_nodup (files : List (Option Document)) (st : MergeState)
    (h : docNodup st.doc) : docNodup (mergeRunFixed st files).doc := by
  induction files generalizing st with
  | nil => exact h
  | cons f rest ih =>
    cases f with
    | none => exact ih st h
    | some d => exact ih (importSourceFixed st d) (importSourceFixed_nodup st d h)

/-- The v1 merge loop keeps every registry duplicate-free at every step. -/
theorem mergeRunV1_nodup (files : List (Option Document)) (st : MergeState)
    (h : docNodup st.doc) : docNodup (mergeRunV1 st files).doc := by
  induction files generalizing st with
  | nil => exact h
  | cons f rest ih =>
    cases f with
    | none => exact ih st h
    | some d => exact ih (importSourceV1 st d) (importSourceV1_nodup st d h)

theorem initState_nodup : docNodup initState.doc := by
  refine ⟨?_, ?_, ?_, ?_⟩ <;> decide

/-- Across a fixed run, the anonymous (`*`-prefixed) block names of the
target never change. -/
theorem mergeRunFixed_star (files : List (Option Document)) (st : MergeState) :
    (blockNames (mergeRunFixed st files).doc.blocks).filter (fun n => n.startsWith "*")
      = (blockNames st.doc.blocks).filter (fun n => n.startsWith "*") := by
  induction files generalizing st with
  | nil => rfl
  | cons f rest ih =>
    cases f with
    | none => exact ih st
    | some d =>
      rw [show mergeRunFixed st (some d :: rest)
            = mergeRunFixed (importSourceFixed st d) rest from rfl]
      rw [ih (importSourceFixed st d), importSourceFixed_blocks]
      exact importBlocksFixed_star d.blocks st.processed st.doc.blocks

theorem importSourceV1_blocks (st : MergeState) (src : Document) :
    (importSourceV1 st src).doc.blocks
      = (importBlocksV1 (st.processed, st.doc.blocks) src.blocks).1.2 := by
  rw [importSourceV1]
  by_cases hab : (importBlocksV1 (st.processed, st.doc.blocks) src.blocks).2 = true
  · simp only [hab, if_pos]
  · simp only [hab, if_neg, Bool.not_eq_true]

/-- Across a v1 run, the anonymous (`*`-prefixed) block names of the target
never change. -/
theorem mergeRunV1_star (files : List (Option Document)) (st : MergeState) :
    (blockNames (mergeRunV1 st files).doc.blocks).filter (fun n => n.startsWith "*")
      = (blockNames st.doc.blocks).filter (fun n => n.startsWith "*") := by
  induction files generalizing st with
  | nil => rfl
  | cons f rest ih =>
    cases f with
    | none => exact ih st
    | some d =>
      rw [show mergeRunV1 st (some d :: rest)
            = mergeRunV1 (importSourceV1 st d) rest from rfl]
      rw [ih (importSourceV1 st d), importSourceV1_blocks]
      exact importBlocksV1_star d.blocks st.processed st.doc.blocks

/-! ### merge_dxf.py: `_reset_insbase` and the two drivers

The per-source import of these drivers goes through the external
`ezdxf.addons.Importer`, which is not part of this repository; it is modeled
as an opaque import step `imp : source → target → target`.  The control flow
(read failures skipped, success counting, save conditions) is the code of
`merge_dxf.py`. -/

/-- Model of `merge_dxf._reset_insbase`: set the document's `$INSBASE` header
coordinate to the origin. -/
def resetInsbase (d : Document) : Document :=
  { d with insbase := (0, 0, 0) }

/-- The per-file loop shared by `merge_dxf.merge_from_folder` and
`merge_dxf.merge`: skip files whose read raised, otherwise reset the source's
insertion base, import it into the target via the external Importer (`imp`),
and count the success. -/
def mergeLoop (imp : Document → Document → Document) :
    Document × Nat → List (Option Document) → Document × Nat
  | acc, [] => acc
  | acc, none :: rest => mergeLoop imp acc rest
  | acc, some d :: rest => mergeLoop imp (imp (resetInsbase d) acc.1, acc.2 + 1) rest

/-- `merge_dxf.merge_from_folder`: with no DXF files the function returns
before creating a target; after the loop the target is saved only when
`merged_count > 0`.  The result is the saved document (`none` = nothing
written). -/
def merge_from_folder (imp : Document → Document → Document)
    (files : List (Option Document)) : Option Document :=
  if files.isEmpty then none
  else
    let r := mergeLoop imp (newDoc, 0) files
    if 0 < r.2 then some r.1 else none

/-- `merge_dxf.merge`: with an empty file list the function returns before
creating a target; otherwise the target is saved unconditionally after the
loop, even when every read failed. -/
def merge (imp : Document → Document → Document)
    (files : List (Option Document)) : Option Document :=
  if files.isEmpty then none
  else some (mergeLoop imp (newDoc, 0) files).1

theorem mergeLoop_count (imp : Document → Document → Document)
    (files : List (Option Document)) (acc : Document × Nat) :
    (mergeLoop imp acc files).2 = acc.2 + (readDocs files).length := by
  induction files generalizing acc with
  | nil => simp [mergeLoop, readDocs]
  | cons f rest ih =>
    cases f with
    | none =>
      rw [mergeLoop, ih]
      simp [readDocs]
    | some d =>
      rw [mergeLoop, ih]
      simp only [readDocs, List.filterMap_cons, id]
      simp [List.length_cons]
      omega

/-! ### batch_block_by_filename.all_entities_to_block -/

/-- Entity copies for `all_entities_to_block`: there is no per-entity
try/except, so the first raising `e.copy()` kills the whole function
(`none`). -/
def copyAllEntities : List Entity → Option (List Entity)
  | [] => some []
  | e :: rest =>
    match e.copy with
    | some e2 => (copyAllEntities rest).map (fun t => e2 :: t)
    | none => none

/-- The block reference inserted by `msp.add_blockref(block_name, (0, 0))`,
placed at the given position on the default layer. -/
def blockRefEntity (n : String) (p : Int × Int) : Entity :=
  ⟨"INSERT", "0", n, p, 0, true⟩

/-- `batch_block_by_filename.all_entities_to_block`: snapshot the modelspace
entities, remove a pre-existing block of the given name, create the block and
fill it with copies of the snapshot, clear the modelspace and insert a single
reference to the block at the origin.  `none` models an uncaught raise during
the copies. -/
def all_entities_to_block (doc : Document) (block_name : String) : Option Document :=
  let blocks1 :=
    if (blockNames doc.blocks).contains block_name then
      doc.blocks.filter (fun b => !(b.name == block_name))
    else doc.blocks
  match copyAllEntities doc.entities with
  | none => none
  | some copies =>
    some { doc with
      blocks := blocks1 ++ [⟨block_name, copies⟩]
      entities := [blockRefEntity block_name (0, 0)] }

theorem copyAllEntities_total (es : List Entity)
    (h : ∀ e ∈ es, e.copyable = true) : copyAllEntities es = some es := by
  induction es with
  | nil => rfl
  | cons e rest ih =>
    have he : e.copyable = true := h e (List.mem_cons_self e rest)
    rw [copyAllEntities]
    simp only [Entity.copy, he, if_pos]
    rw [ih (fun x hx => h x (List.mem_cons_of_mem e hx))]
    rfl

/-! ### Claim theorems -/

theorem countKey_one_of_lookup {α : Type} {r : List (String × α)} {n : String}
    {v : α} (hnd : (regKeys r).Nodup) (h : lookupKey r n = some v) :
    countKey r n = 1 := by
  refine countKey_eq_one hnd ?_
  rw [containsKey_eq_isSome, h]
  rfl

theorem importSourceV1_layers_no_abort (st : MergeState) (src : Document)
    (hab : (importBlocksV1 (st.processed, st.doc.blocks) src.blocks).2 = false) :
    (importSourceV1 st src).doc.layers
      = importRegistry (fun _ => false) st.doc.layers src.layers := by
  rw [importSourceV1, hab]
  simp

/-- Source A of the first-writer-wins scenario: two entities on layer `L1`,
`L1` defined red (color 1). -/
def docA : Document where
  entities := [⟨"LINE", "L1", "", (0, 0), 1, true⟩, ⟨"LINE", "L1", "", (1, 1), 2, true⟩]
  blocks := []
  layers := [("L1", ⟨1, "Continuous", -3, 0⟩)]
  linetypes := []
  styles := []
  insbase := (0, 0, 0)

/-- Source B of the first-writer-wins scenario: three entities on layer `L1`,
`L1` defined blue (color 5). -/
def docB : Document where
  entities := [⟨"LINE", "L1", "", (2, 2), 3, true⟩, ⟨"LINE", "L1", "", (3, 3), 4, true⟩,
    ⟨"LINE", "L1", "", (4, 4), 5, true⟩]
  blocks := []
  layers := [("L1", ⟨5, "Continuous", -3, 0⟩)]
  linetypes := []
  styles := []
  insbase := (0, 0, 0)

/-- Claim C1: merging sources A then B that both define a layer of the same
name with different definitions leaves exactly one layer of that name in the
target, holding A's definition: both merge scripts insert a layer only when
the name is absent from the target registry, so the first definition seen
wins and is never overwritten.  (For the `merge_dxf_files.py` variant the
importing of A must not be aborted by a failing block-entity copy, hence
the copyability hypothesis on A's blocks.) -/
theorem C1_first_writer_wins (A B : Document) (L : String) (dA dB : LayerDef)
    (hA : lookupKey A.layers L = some dA)
    (hB : lookupKey B.layers L = some dB)
    (hdiff : dA ≠ dB)
    (hfresh : containsKey newDoc.layers L = false)
    (hAblocks : ∀ b ∈ A.blocks, ∀ e ∈ b.entities, e.copyable = true) :
    lookupKey (runFixed [some A, some B]).doc.layers L = some dA ∧
    countKey (runFixed [some A, some B]).doc.layers L = 1 ∧
    lookupKey (runV1 [some A, some B]).doc.layers L = some dA ∧
    countKey (runV1 [some A, some B]).doc.layers L = 1 := by
  have h0 : lookupKey newDoc.layers L = none := lookup_of_containsKey_false hfresh
  have hex : (fun _ : String => false) L = false := rfl
  have hfix1 : lookupKey (importSourceFixed initState A).doc.layers L = some dA := by
    rw [importSourceFixed_layers]
    show lookupKey (importRegistry (fun _ => false) newDoc.layers A.layers) L = some dA
    rw [importRegistry_lookup_new A.layers h0 hex]
    exact hA
  have hfix : lookupKey (runFixed [some A, some B]).doc.layers L = some dA := by
    show lookupKey (mergeRunFixed (importSourceFixed initState A) [some B]).doc.layers L
      = some dA
    exact mergeRunFixed_layers_preserved [some B] _ hfix1
  have hv1A : lookupKey (importSourceV1 initState A).doc.layers L = some dA := by
    rw [importSourceV1_layers_no_abort initState A
      (importBlocksV1_no_abort A.blocks initState.processed initState.doc.blocks hAblocks)]
    show lookupKey (importRegistry (fun _ => false) newDoc.layers A.layers) L = some dA
    rw [importRegistry_lookup_new A.layers h0 hex]
    exact hA
  have hv1 : lookupKey (runV1 [some A, some B]).doc.layers L = some dA := by
    show lookupKey (mergeRunV1 (importSourceV1 initState A) [some B]).doc.layers L = some dA
    exact mergeRunV1_layers_preserved [some B] _ hv1A
  refine ⟨hfix, ?_, hv1, ?_⟩
  · exact countKey_one_of_lookup
      (mergeRunFixed_nodup [some A, some B] initState initState_nodup).2.1 hfix
  · exact countKey_one_of_lookup
      (mergeRunV1_nodup [some A, some B] initState initState_nodup).2.1 hv1

/-- Witness for C1: the hypotheses hold at `docA`, `docB` and layer `L1`, and
the merged target of either script carries A's red definition exactly once. -/
theorem C1_first_writer_wins_witness :
    (lookupKey docA.layers "L1" = some ⟨1, "Continuous", -3, 0⟩ ∧
     lookupKey docB.layers "L1" = some ⟨5, "Continuous", -3, 0⟩ ∧
     (⟨1, "Continuous", -3, 0⟩ : LayerDef) ≠ ⟨5, "Continuous", -3, 0⟩ ∧
     containsKey newDoc.layers "L1" = false ∧
     (∀ b ∈ docA.blocks, ∀ e ∈ b.entities, e.copyable = true)) ∧
    (lookupKey (runFixed [some docA, some docB]).doc.layers "L1"
        = some ⟨1, "Continuous", -3, 0⟩ ∧
     countKey (runFixed [some docA, some docB]).doc.layers "L1" = 1 ∧
     lookupKey (runV1 [some docA, some docB]).doc.layers "L1"
        = some ⟨1, "Continuous", -3, 0⟩ ∧
     countKey (runV1 [some docA, some docB]).doc.layers "L1" = 1) :=
  ⟨⟨by decide, by decide, by decide, by decide, by decide⟩,
   C1_first_writer_wins docA docB "L1" ⟨1, "Continuous", -3, 0⟩ ⟨5, "Continuous", -3, 0⟩
     (by decide) (by decide) (by decide) (by decide) (by decide)⟩

/-- Claim C2: after a run of `fixed_merge_dxf_Version2.merge_dxf_files`, the
target modelspace is the concatenation, in source-list order, of each
successfully read source's successfully copied entities in their original
order (so no entity is duplicated), the per-source counts are those copied
lists' lengths, and the total entity count is their sum (failed copies
excluded). -/
theorem C2_entity_order_and_count (files : List (Option Document)) :
    (runFixed files).doc.entities = ((readDocs files).map copiedOf).flatten ∧
    (runFixed files).counts = (readDocs files).map (fun d => (copiedOf d).length) ∧
    (runFixed files).doc.entities.length
      = ((readDocs files).map (fun d => (copiedOf d).length)).sum := by
  refine ⟨runFixed_entities files, runFixed_counts files, ?_⟩
  rw [runFixed_entities files, List.length_flatten, List.map_map]
  rfl

/-- Claim C3 counterexample: a run over one unreadable file has zero
successfully read sources, yet `fixed_merge_dxf_Version2.merge_dxf_files`
still writes the (empty) output, and so does `merge_dxf.merge`; so "the
output file is not written when zero sources succeed" is false for them. -/
theorem C3_output_written_despite_zero_successes :
    readDocs [(none : Option Document)] = [] ∧
    mergeDxfFilesOutput [(none : Option Document)] = some newDoc ∧
    (merge (fun _ t => t) [(none : Option Document)]).isSome = true := by
  refine ⟨rfl, ?_, rfl⟩
  show some (runFixed [none]).doc = some newDoc
  rfl

/-- Claim C3 (amended): only `merge_dxf.merge_from_folder` skips persistence
when zero sources are successfully read (it writes exactly when at least one
read succeeded); `merge_dxf.merge` and
`fixed_merge_dxf_Version2.merge_dxf_files` write the output whenever the file
list is nonempty, regardless of how many sources succeeded. -/
theorem C3_amended_persistence (imp : Document → Document → Document)
    (files : List (Option Document)) :
    ((merge_from_folder imp files).isSome = true ↔ 0 < (readDocs files).length) ∧
    ((merge imp files).isSome = true ↔ files ≠ []) ∧
    ((mergeDxfFilesOutput files).isSome = true ↔ files ≠ []) := by
  refine ⟨?_, ?_, ?_⟩
  · cases files with
    | nil => simp [merge_from_folder, readDocs]
    | cons f rest =>
      rw [merge_from_folder]
      simp only [List.isEmpty_cons, Bool.false_eq_true, if_neg]
      rw [mergeLoop_count imp (f :: rest) (newDoc, 0)]
      by_cases h : 0 < (readDocs (f :: rest)).length
      · simp [h]
      · simp [h]
  · cases files with
    | nil => simp [merge]
    | cons f rest => simp [merge]
  · cases files with
    | nil => simp [mergeDxfFilesOutput]
    | cons f rest => simp [mergeDxfFilesOutput]

/-- Claim C4: the reserved resource names (the three built-in linetypes
`ByLayer`, `ByBlock`, `Continuous`, and the built-in text style `Standard`)
are never replaced by any source during a merge run of either script: the
merged target still holds the fresh target's definitions for them, exactly
once each. -/
theorem C4_reserved_names_never_replaced (files : List (Option Document)) :
    (lookupKey (runFixed files).doc.linetypes "ByLayer"
        = lookupKey newDoc.linetypes "ByLayer" ∧
      lookupKey (runFixed files).doc.linetypes "ByBlock"
        = lookupKey newDoc.linetypes "ByBlock" ∧
      lookupKey (runFixed files).doc.linetypes "Continuous"
        = lookupKey newDoc.linetypes "Continuous" ∧
      lookupKey (runFixed files).doc.styles "Standard"
        = lookupKey newDoc.styles "Standard" ∧
      countKey (runFixed files).doc.linetypes "ByLayer" = 1 ∧
      countKey (runFixed files).doc.linetypes "ByBlock" = 1 ∧
      countKey (runFixed files).doc.linetypes "Continuous" = 1 ∧
      countKey (runFixed files).doc.styles "Standard" = 1) ∧
    (lookupKey (runV1 files).doc.linetypes "ByLayer"
        = lookupKey newDoc.linetypes "ByLayer" ∧
      lookupKey (runV1 files).doc.linetypes "ByBlock"
        = lookupKey newDoc.linetypes "ByBlock" ∧
      lookupKey (runV1 files).doc.linetypes "Continuous"
        = lookupKey newDoc.linetypes "Continuous" ∧
      lookupKey (runV1 files).doc.styles "Standard"
        = lookupKey newDoc.styles "Standard" ∧
      countKey (runV1 files).doc.linetypes "ByLayer" = 1 ∧
      countKey (runV1 files).doc.linetypes "ByBlock" = 1 ∧
      countKey (runV1 files).doc.linetypes "Continuous" = 1 ∧
      countKey (runV1 files).doc.styles "Standard" = 1) := by
  have hBL : lookupKey newDoc.linetypes "ByLayer" = some ⟨""⟩ := by decide
  have hBB : lookupKey newDoc.linetypes "ByBlock" = some ⟨""⟩ := by decide
  have hCO : lookupKey newDoc.linetypes "Continuous" = some ⟨"Solid"⟩ := by decide
  have hST : lookupKey newDoc.styles "Standard" = some ⟨"txt", 0, 0, 0⟩ := by decide
  have fBL := mergeRunFixed_linetypes_preserved files initState hBL
  have fBB := mergeRunFixed_linetypes_preserved files initState hBB
  have fCO := mergeRunFixed_linetypes_preserved files initState hCO
  have fST := mergeRunFixed_styles_preserved files initState hST
  have vBL := mergeRunV1_linetypes_preserved files initState hBL
  have vBB := mergeRunV1_linetypes_preserved files initState hBB
  have vCO := mergeRunV1_linetypes_preserved files initState hCO
  have vST := mergeRunV1_styles_preserved files initState hST
  have hndF := mergeRunFixed_nodup files initState initState_nodup
  have hndV := mergeRunV1_nodup files initState initState_nodup
  refine ⟨⟨?_, ?_, ?_, ?_, ?_, ?_, ?_, ?_⟩, ⟨?_, ?_, ?_, ?_, ?_, ?_, ?_, ?_⟩⟩
  · rw [hBL]; exact fBL
  · rw [hBB]; exact fBB
  · rw [hCO]; exact fCO
  · rw [hST]; exact fST
  · exact countKey_one_of_lookup hndF.2.2.1 fBL
  · exact countKey_one_of_lookup hndF.2.2.1 fBB
  · exact countKey_one_of_lookup hndF.2.2.1 fCO
  · exact countKey_one_of_lookup hndF.2.2.2 fST
  · rw [hBL]; exact vBL
  · rw [hBB]; exact vBB
  · rw [hCO]; exact vCO
  · rw [hST]; exact vST
  · exact countKey_one_of_lookup hndV.2.2.1 vBL
  · exact countKey_one_of_lookup hndV.2.2.1 vBB
  · exact countKey_one_of_lookup hndV.2.2.1 vCO
  · exact countKey_one_of_lookup hndV.2.2.2 vST

/-- Claim C5: a source block whose name carries the reserved anonymous
marker `*` is never copied into the target block registry by either merge
script: after any run, the anonymous block names of the target are exactly
those of the fresh `ezdxf.new()` target. -/
theorem C5_anonymous_blocks_never_copied (files : List (Option Document)) :
    (blockNames (runFixed files).doc.blocks).filter (fun n => n.startsWith "*")
        = (blockNames newDoc.blocks).filter (fun n => n.startsWith "*") ∧
    (blockNames (runV1 files).doc.blocks).filter (fun n => n.startsWith "*")
        = (blockNames newDoc.blocks).filter (fun n => n.startsWith "*") :=
  ⟨mergeRunFixed_star files initState, mergeRunV1_star files initState⟩

/-- Claim C6: during a run of either merge script, no registry of the target
(blocks, layers, linetypes, text styles) ever holds two entries of the same
name: the uniqueness invariant holds after every per-source import step (the
state after the first k files), not only at the end. -/
theorem C6_registry_keys_unique (files : List (Option Document)) (k : Nat) :
    docNodup (runFixed (files.take k)).doc ∧ docNodup (runV1 (files.take k)).doc :=
  ⟨mergeRunFixed_nodup (files.take k) initState initState_nodup,
   mergeRunV1_nodup (files.take k) initState initState_nodup⟩

/-- Claim C7: a source whose read fails does not abort the run of
`fixed_merge_dxf_Version2.merge_dxf_files`: the loop continues with the next
file, the final target holds exactly the entities copied from the sources
that were read successfully (nothing from the failed ones), and one
per-source report is produced for each successful source. -/
theorem C7_failed_source_skipped (files : List (Option Document))
    (hfail : (none : Option Document) ∈ files) :
    (runFixed files).doc.entities = ((readDocs files).map copiedOf).flatten ∧
    (runFixed files).counts.length = (readDocs files).length := by
  refine ⟨runFixed_entities files, ?_⟩
  rw [runFixed_counts files, List.length_map]

/-- Witness for C7: a run over A, a corrupt file, then B merges exactly A's
and B's entities. -/
theorem C7_failed_source_skipped_witness :
    ((none : Option Document) ∈ [some docA, none, some docB]) ∧
    ((runFixed [some docA, none, some docB]).doc.entities
        = ((readDocs [some docA, none, some docB]).map copiedOf).flatten ∧
      (runFixed [some docA, none, some docB]).counts.length
        = (readDocs [some docA, none, some docB]).length) :=
  ⟨by decide, C7_failed_source_skipped [some docA, none, some docB] (by decide)⟩

/-- An entity whose `layerName` does not resolve in its own source document
(the source has no layer `GHOST`). -/
def ghostEntity : Entity :=
  ⟨"LINE", "GHOST", "", (0, 0), 7, true⟩

/-- A source document with one entity on the dangling layer `GHOST` and an
empty layer table. -/
def ghostDoc : Document where
  entities := [ghostEntity]
  blocks := []
  layers := []
  linetypes := []
  styles := []
  insbase := (0, 0, 0)

/-- Claim C8 counterexample: for an entity whose `layerName` (`GHOST`) does
not resolve in its source, both merge scripts copy the entity verbatim: the
merged entity still references `GHOST` — which does not even exist in the
target — instead of a substituted default layer, and no substitution happens
anywhere. -/
theorem C8_no_default_layer_substitution :
    containsKey ghostDoc.layers ghostEntity.layerName = false ∧
    (runFixed [some ghostDoc]).doc.entities = [ghostEntity] ∧
    (runV1 [some ghostDoc]).doc.entities = [ghostEntity] ∧
    ghostEntity.layerName = "GHOST" ∧
    containsKey (runFixed [some ghostDoc]).doc.layers "GHOST" = false ∧
    containsKey (runV1 [some ghostDoc]).doc.layers "GHOST" = false := by
  decide

/-- Claim C8 (amended): an entity whose `layerName` does not resolve in its
own source document is neither failed nor dropped by the import, but no
default layer is substituted and no warning is recorded either: the entity is
copied into the target verbatim, dangling layer reference included. -/
theorem C8_amended_dangling_layer_copied_verbatim
    (files : List (Option Document)) (d : Document) (e : Entity)
    (hd : some d ∈ files) (he : e ∈ d.entities) (hc : e.copyable = true)
    (hdangling : containsKey d.layers e.layerName = false) :
    e ∈ (runFixed files).doc.entities := by
  rw [runFixed_entities]
  have hd2 : d ∈ readDocs files := by
    rw [readDocs, List.mem_filterMap]
    exact ⟨some d, hd, rfl⟩
  refine List.mem_flatten.mpr ⟨copiedOf d, List.mem_map_of_mem copiedOf hd2, ?_⟩
  rw [copiedOf, List.mem_filter]
  exact ⟨he, hc⟩

/-- Witness for C8 (amended): the dangling-layer entity of `ghostDoc` ends up
verbatim in the merged target. -/
theorem C8_amended_dangling_layer_copied_verbatim_witness :
    ((some ghostDoc ∈ [some ghostDoc]) ∧ ghostEntity ∈ ghostDoc.entities ∧
      ghostEntity.copyable = true ∧
      containsKey ghostDoc.layers ghostEntity.layerName = false) ∧
    ghostEntity ∈ (runFixed [some ghostDoc]).doc.entities :=
  ⟨⟨by decide, by decide, by decide, by decide⟩,
   C8_amended_dangling_layer_copied_verbatim [some ghostDoc] ghostDoc ghostEntity
     (by decide) (by decide) (by decide) (by decide)⟩

/-- Claim C9: `merge_dxf._reset_insbase` (set the document's insertion-base
header coordinate to the origin) is idempotent: applying it twice yields the
same document as applying it once. -/
theorem C9_resetInsbase_idempotent (d : Document) :
    resetInsbase (resetInsbase d) = resetInsbase d := rfl

/-- Claim C10: when every modelspace entity is copyable,
`all_entities_to_block` succeeds and leaves the document with a modelspace
holding exactly one entity — a reference to the named block placed at the
origin — while that block holds a copy of every former modelspace entity in
their original order, and any pre-existing block of that name has been
removed and replaced. -/
theorem C10_all_entities_to_block (doc : Document) (n : String)
    (h : ∀ e ∈ doc.entities, e.copyable = true) :
    all_entities_to_block doc n =
      some { doc with
        blocks := doc.blocks.filter (fun b => !(b.name == n)) ++ [⟨n, doc.entities⟩]
        entities := [blockRefEntity n (0, 0)] } := by
  rw [all_entities_to_block]
  rw [copyAllEntities_total doc.entities h]
  by_cases hc : (blockNames doc.blocks).contains n = true
  · simp only [hc, if_pos]
  · simp only [hc, if_neg, Bool.not_eq_true]
    have hfilter : doc.blocks.filter (fun b => !(b.name == n)) = doc.blocks := by
      apply List.filter_eq_self.mpr
      intro b hb
      have : b.name ≠ n := by
        intro he
        apply hc
        rw [← he]
        have : b.name ∈ blockNames doc.blocks :=
          List.mem_map_of_mem Block.name hb
        simpa using this
      simpa using this
    rw [hfilter]

/-- A document with two modelspace entities and a pre-existing block named
`plan`, for the collapse scenario. -/
def planDoc : Document where
  entities := [⟨"LINE", "0", "", (5, 5), 10, true⟩, ⟨"TEXT", "0", "", (6, 6), 11, true⟩]
  blocks := [⟨"plan", [⟨"ARC", "0", "", (9, 9), 12, true⟩]⟩]
  layers := [("0", ⟨7, "Continuous", -3, 0⟩)]
  linetypes := []
  styles := []
  insbase := (0, 0, 0)

/-- Witness for C10: collapsing a two-entity document that already holds a
block named `plan` replaces that block and leaves one origin-placed
reference. -/
theorem C10_all_entities_to_block_witness :
    (∀ e ∈ planDoc.entities, e.copyable = true) ∧
    all_entities_to_block planDoc "plan" =
      some { planDoc with
        blocks := planDoc.blocks.filter (fun b => !(b.name == "plan"))
          ++ [⟨"plan", planDoc.entities⟩]
        entities := [blockRefEntity "plan" (0, 0)] } :=
  ⟨by decide, C10_all_entities_to_block planDoc "plan" (by decide)⟩
